import Mathlib

/-!
Verification of the checkers client's move-legality engine, board codec,
premove queue, game-state synchronizer and timeout arbiter.

The definitions below are shallow embeddings of the TypeScript source:
* `Piece`, `Turn`, `GameStatus`, `parseBoardState`, `getPiece`,
  `isPieceSelectable` come from the shared types module.
* `hasAnyCaptureAvailable`, `calculateValidMoves`,
  `calculatePremoveValidMoves`, `isPieceOwnedByPlayer` come from the board
  component.  The three move computations in the source repeat the identical
  per-direction bounds/emptiness/enemy tests inline; here those tests are the
  shared helpers `simpleStepOpt` and `captureStepOpt`.
* `localMakeMove`, `rollbackMove`, `makeMove`, `fetchGamesApply`,
  `fetchGameApply`, `boardToString` come from the game store.
* `premoveExecuteStep`, `queuePremove`, `timeoutTick` come from the page
  component's premove and timeout effects.

Strings are modelled as `List Char`; JS numbers used as board coordinates are
modelled as `Int`.  All board accesses in the source are either guarded by
`0 <= x && x < 8` bounds checks or provably in bounds under those guards, so
the total accessor `pieceAt` (returning `Empty` out of bounds) agrees with the
source on every reachable access.  Loading flags and sound/animation calls are
not modelled; they are never read by the logic under verification.
-/

namespace Checkers

/-- Piece values, from the `Piece` enum in the types module. -/
inductive Piece where
  | Empty
  | Red
  | Black
  | RedKing
  | BlackKing
deriving DecidableEq, Repr

/-- Turn values, from the `Turn` enum. -/
inductive Turn where
  | Red
  | Black
deriving DecidableEq, Repr

/-- Game status values, from the `GameStatus` enum. -/
inductive GameStatus where
  | Pending
  | Active
  | Finished
deriving DecidableEq, Repr

/-- The local player's colour as used by the board component
(`playerColor : "red" | "black" | "spectator"`). -/
inductive PlayerColor where
  | red
  | black
  | spectator
deriving DecidableEq, Repr

/-- A destination square `{row, col}` as produced by the engine. -/
structure Pos where
  row : Int
  col : Int
deriving DecidableEq, Repr

/-- A move description `{fromRow, fromCol, toRow, toCol}` (`MoveInfo` in the
store). -/
structure MoveInfo where
  fromRow : Int
  fromCol : Int
  toRow : Int
  toCol : Int
deriving DecidableEq, Repr

/-- `piece === Piece.Red || piece === Piece.RedKing`. -/
def isRedPiece (p : Piece) : Bool :=
  p = Piece.Red || p = Piece.RedKing

/-- `piece === Piece.RedKing || piece === Piece.BlackKing`. -/
def isKingPiece (p : Piece) : Bool :=
  p = Piece.RedKing || p = Piece.BlackKing

/-- The mid-square enemy test used by every capture check in the source:
`isRed ? (mid === Black || mid === BlackKing) : (mid === Red || mid === RedKing)`. -/
def isEnemyOf (isRed : Bool) (mid : Piece) : Bool :=
  if isRed then mid = Piece.Black || mid = Piece.BlackKing
  else mid = Piece.Red || mid = Piece.RedKing

/-- Board decoded by `parseBoardState`: a list of rows of pieces. -/
abbrev BoardG := List (List Piece)

/-- Total accessor for `board[r][c]`.  Every access in the source is guarded
by `0 <= x && x < 8` checks (or provably in bounds under such a guard), so the
out-of-bounds default never matters on reachable paths. -/
def pieceAt (board : BoardG) (r c : Int) : Piece :=
  if 0 ≤ r ∧ 0 ≤ c then (board.getD r.toNat []).getD c.toNat Piece.Empty
  else Piece.Empty

/-- The character decoding switch of `parseBoardState`. -/
def charToPiece (c : Char) : Piece :=
  if c = 'r' then Piece.Red
  else if c = 'b' then Piece.Black
  else if c = 'R' then Piece.RedKing
  else if c = 'B' then Piece.BlackKing
  else Piece.Empty

/-- The character encoding switch of `boardToString` (note: the default arm
emits a dot, not a space). -/
def pieceToChar (p : Piece) : Char :=
  match p with
  | Piece.Red => 'r'
  | Piece.Black => 'b'
  | Piece.RedKing => 'R'
  | Piece.BlackKing => 'B'
  | Piece.Empty => '.'

/-- `boardState.split("/")` on a character list. -/
def splitOnSlash : List Char → List (List Char)
  | [] => [[]]
  | c :: cs =>
    let r := splitOnSlash cs
    if c = '/' then [] :: r else (c :: r.headD []) :: r.tail

/-- `rows.join("/")`: the inverse gluing used by `boardToString`. -/
def joinSlash : List (List Char) → List Char
  | [] => []
  | [row] => row
  | row :: rest => row ++ '/' :: joinSlash rest

/-- `parseBoardState`: split the wire string on `/` and decode each
character. -/
def parseBoardState (s : List Char) : BoardG :=
  (splitOnSlash s).map (fun row => row.map charToPiece)

/-- `boardToString`: encode each square and join the rows with `/`. -/
def boardToString (board : BoardG) : List Char :=
  joinSlash (board.map (fun row => row.map pieceToChar))

/-- `getPiece`: decode, then return the square if in bounds, else `Empty`. -/
def getPiece (boardState : List Char) (row col : Int) : Piece :=
  let board := parseBoardState boardState
  if 0 ≤ row ∧ row < 8 ∧ 0 ≤ col ∧ col < 8 then pieceAt board row col
  else Piece.Empty

/-- The direction set: four diagonals for a king, the two forward diagonals
for a man (down for red, up for black).  Identical in all three source
computations. -/
def directionsFor (piece : Piece) : List (Int × Int) :=
  if isKingPiece piece then [(-1, -1), (-1, 1), (1, -1), (1, 1)]
  else if isRedPiece piece then [(1, -1), (1, 1)]
  else [(-1, -1), (-1, 1)]

/-- One direction's simple-move test: adjacent square in bounds and empty.
This is the literal condition repeated in `calculateValidMoves` and
`calculatePremoveValidMoves`. -/
def simpleStepOpt (board : BoardG) (row col : Int) (d : Int × Int) : Option Pos :=
  let newRow := row + d.1
  let newCol := col + d.2
  if 0 ≤ newRow ∧ newRow < 8 ∧ 0 ≤ newCol ∧ newCol < 8 ∧
      pieceAt board newRow newCol = Piece.Empty
  then some ⟨newRow, newCol⟩ else none

/-- One direction's capture test: landing square in bounds and empty, and the
intervening square holds an opposing piece.  This is the literal condition
repeated in `calculateValidMoves`, `calculatePremoveValidMoves`,
`hasAnyCaptureAvailable` and `getPiecesWithCaptures`. -/
def captureStepOpt (board : BoardG) (row col : Int) (isRed : Bool)
    (d : Int × Int) : Option Pos :=
  let jumpRow := row + 2 * d.1
  let jumpCol := col + 2 * d.2
  let midRow := row + d.1
  let midCol := col + d.2
  if 0 ≤ jumpRow ∧ jumpRow < 8 ∧ 0 ≤ jumpCol ∧ jumpCol < 8 ∧
      pieceAt board jumpRow jumpCol = Piece.Empty ∧
      isEnemyOf isRed (pieceAt board midRow midCol) = true
  then some ⟨jumpRow, jumpCol⟩ else none

/-- The `simpleMoves` list accumulated by `calculateValidMoves`. -/
def simpleMovesOf (board : BoardG) (row col : Int) (piece : Piece) : List Pos :=
  (directionsFor piece).filterMap (simpleStepOpt board row col)

/-- The `captureMoves` list accumulated by `calculateValidMoves`. -/
def captureMovesOf (board : BoardG) (row col : Int) (piece : Piece) : List Pos :=
  (directionsFor piece).filterMap (captureStepOpt board row col (isRedPiece piece))

/-- `hasAnyCaptureAvailable`'s per-square body: skip empty and opposing
pieces, then test every direction for an available jump. -/
def captureCheckAt (board : BoardG) (isPlayerRed : Bool) (r c : Int) : Bool :=
  let piece := pieceAt board r c
  if piece = Piece.Empty then false
  else if isPlayerRed ≠ isRedPiece piece then false
  else (directionsFor piece).any fun d => (captureStepOpt board r c (isRedPiece piece) d).isSome

/-- `hasAnyCaptureAvailable`: scan all 64 squares for a friendly piece with at
least one available capture. -/
def hasAnyCaptureAvailable (board : BoardG) (pc : PlayerColor) : Bool :=
  (List.range 8).any fun r => (List.range 8).any fun c =>
    captureCheckAt board (decide (pc = PlayerColor.red)) (r : Int) (c : Int)

/-- `calculateValidMoves`: per-direction simple and capture lists, then the
mandatory-capture policy (own captures first, else frozen if any friendly
piece can capture, else simple moves). -/
def calculateValidMoves (board : BoardG) (pc : PlayerColor) (row col : Int)
    (piece : Piece) : List Pos :=
  let simpleMoves := simpleMovesOf board row col piece
  let captureMoves := captureMovesOf board row col piece
  if captureMoves ≠ [] then captureMoves
  else if hasAnyCaptureAvailable board pc = true then []
  else simpleMoves

/-- `calculatePremoveValidMoves`: for each direction push the simple move (if
any) then the capture (if any); no mandatory-capture filtering. -/
def calculatePremoveValidMoves (board : BoardG) (row col : Int) (piece : Piece) :
    List Pos :=
  (directionsFor piece).foldr
    (fun d acc =>
      (simpleStepOpt board row col d).toList ++
        (captureStepOpt board row col (isRedPiece piece) d).toList ++ acc)
    []

/-- `isPieceOwnedByPlayer`: side match only, independent of the turn. -/
def isPieceOwnedByPlayer (piece : Piece) (pc : PlayerColor) : Bool :=
  if piece = Piece.Empty then false
  else (decide (pc = PlayerColor.red) && isRedPiece piece) ||
    (decide (pc = PlayerColor.black) && !isRedPiece piece)

/-- `isPieceSelectable`: turn match and side match. -/
def isPieceSelectable (piece : Piece) (turn : Turn) (pc : PlayerColor) : Bool :=
  if pc = PlayerColor.spectator then false
  else
    let isRed := piece = Piece.Red || piece = Piece.RedKing
    let isBlack := piece = Piece.Black || piece = Piece.BlackKing
    if turn = Turn.Red ∧ pc = PlayerColor.red ∧ isRed = true then true
    else if turn = Turn.Black ∧ pc = PlayerColor.black ∧ isBlack = true then true
    else false

/-- Promotion as applied by `localMakeMove`: a red man landing on row 7
becomes a red king, a black man landing on row 0 becomes a black king,
anything else is unchanged. -/
def promote (piece : Piece) (toRow : Int) : Piece :=
  if piece = Piece.Red ∧ toRow = 7 then Piece.RedKing
  else if piece = Piece.Black ∧ toRow = 0 then Piece.BlackKing
  else piece

/-- In-place update `board[r][c] = p` (both indices are in range at every
call site that matters; out of range the board is unchanged). -/
def setSquare (board : BoardG) (r c : Int) (p : Piece) : BoardG :=
  if 0 ≤ r ∧ 0 ≤ c then
    board.set r.toNat ((board.getD r.toNat []).set c.toNat p)
  else board

/-- The board transform inside `localMakeMove`: clear the source square,
clear the jumped square when the row delta is 2, then write the (possibly
promoted) piece at the destination. -/
def applyMoveBoard (board : BoardG) (m : MoveInfo) : BoardG :=
  let piece := pieceAt board m.fromRow m.fromCol
  let b1 := setSquare board m.fromRow m.fromCol Piece.Empty
  let rowDiff := (m.toRow - m.fromRow).natAbs
  let b2 :=
    if rowDiff = 2 then
      let capturedRow := Int.fdiv (m.fromRow + m.toRow) 2
      let capturedCol := Int.fdiv (m.fromCol + m.toCol) 2
      setSquare b1 capturedRow capturedCol Piece.Empty
    else b1
  setSquare b2 m.toRow m.toCol (promote piece m.toRow)

/-- The slice of a `CheckersGame` snapshot relevant to the synchronizer. -/
structure Game where
  id : Nat
  boardState : List Char
  currentTurn : Turn
  moveCount : Nat
  status : GameStatus
deriving DecidableEq, Repr

/-- The `previousState` snapshot stored by `localMakeMove` for rollback. -/
structure PrevState where
  games : List Game
  selectedGame : Game
deriving DecidableEq, Repr

/-- The slice of the zustand store relevant to the claims: the games list,
the selected game and its id, the single-flight move guard and the rollback
snapshot.  `hasError` stands for `error !== null`. -/
structure StoreState where
  games : List Game
  selectedGame : Option Game
  selectedGameId : Option Nat
  isMoving : Bool
  previousState : Option PrevState
  hasError : Bool
deriving DecidableEq, Repr

/-- `localMakeMove`: snapshot the pre-mutation state, recompute the board via
the codec, apply capture removal and promotion, flip the turn, increment
`moveCount`, and write the updated game into both slots. -/
def localMakeMove (s : StoreState) (m : MoveInfo) : StoreState :=
  match s.selectedGame with
  | none => s
  | some g =>
    let board := parseBoardState g.boardState
    let newBoard := applyMoveBoard board m
    let newTurn := if g.currentTurn = Turn.Red then Turn.Black else Turn.Red
    let updatedGame : Game :=
      { g with
        boardState := boardToString newBoard
        currentTurn := newTurn
        moveCount := g.moveCount + 1 }
    { s with
      previousState := some { games := s.games, selectedGame := g }
      selectedGame := some updatedGame
      games := s.games.map fun x => if x.id = g.id then updatedGame else x }

/-- `rollbackMove`: restore the games list and selected game from
`previousState` and clear the snapshot. -/
def rollbackMove (s : StoreState) : StoreState :=
  match s.previousState with
  | none => s
  | some p =>
    { s with
      games := p.games
      selectedGame := some p.selectedGame
      previousState := none }

/-- `games.find(g => g.id === id)`. -/
def findGame (games : List Game) (i : Nat) : Option Game :=
  games.find? fun g => g.id = i

/-- The state update performed by `fetchGames` on a successful poll: replace
the games list, then refresh the selected game only when the incoming
snapshot's `moveCount` is at least the cached one. -/
def fetchGamesApply (s : StoreState) (incoming : List Game) : StoreState :=
  let s1 := { s with games := incoming }
  match s.selectedGameId with
  | none => s1
  | some i =>
    match findGame incoming i with
    | none => s1
    | some updated =>
      match s.selectedGame with
      | none => { s1 with selectedGame := some updated }
      | some cur =>
        if updated.moveCount ≥ cur.moveCount then { s1 with selectedGame := some updated }
        else s1

/-- The state update performed by `fetchGame id`: on data, replace the
selected game unconditionally (no `moveCount` guard) and patch the games
list; on no data or transport failure, set the error flag. -/
def fetchGameApply (s : StoreState) (i : Nat) (fetched : Option Game) : StoreState :=
  match fetched with
  | some g =>
    { s with
      selectedGame := some g
      selectedGameId := some i
      games := s.games.map fun x => if x.id = i then g else x }
  | none => { s with hasError := true }

/-- Observable events of one `makeMove` call, in order. -/
inductive MoveEvent where
  | guardSet
  | sendMove (gameId : Nat) (m : MoveInfo)
  | fetchAttempt (gameId : Nat)
  | guardClear
deriving DecidableEq, Repr

/-- One iteration's inputs for the confirmation retry loop:
`selectedIdNow` is the value of `selectedGameId` observed at the loop's
switch check (it models concurrent game switches), `fetched` is the snapshot
the server returns for this attempt (`none` = fetch failed). -/
structure RetryStep where
  selectedIdNow : Option Nat
  fetched : Option Game
deriving DecidableEq, Repr

/-- The environment of one `makeMove` call: whether the mutation send
succeeds, and the per-attempt retry observations. -/
structure MoveEnv where
  sendOk : Bool
  steps : List RetryStep
deriving DecidableEq, Repr

/-- The confirmation retry loop of `makeMove`: each iteration first abandons
if the user switched games, then fetches the snapshot, abandons if the
fetched game is a different one, and stops as soon as `moveCount` exceeds the
pre-move count. -/
def retryLoop (gameId oldCount : Nat) : List RetryStep → StoreState →
    StoreState × List MoveEvent
  | [], s => (s, [])
  | step :: rest, s =>
    if step.selectedIdNow ≠ some gameId then
      ({ s with selectedGameId := step.selectedIdNow }, [])
    else
      let s1 := fetchGameApply { s with selectedGameId := step.selectedIdNow }
        gameId step.fetched
      match s1.selectedGame with
      | none => (s1, [MoveEvent.fetchAttempt gameId])
      | some u =>
        if u.id ≠ gameId then (s1, [MoveEvent.fetchAttempt gameId])
        else if u.moveCount > oldCount then (s1, [MoveEvent.fetchAttempt gameId])
        else
          let r := retryLoop gameId oldCount rest s1
          (r.1, MoveEvent.fetchAttempt gameId :: r.2)

/-- `makeMove`: reject without a game or player id; reject while a move is
already in flight; otherwise set the guard, send the mutation, run the
bounded confirmation loop (at most 3 attempts) on success or record the error
on failure, and clear the guard in every case.  (The source's `fetchSuccess`
flag is computed but never affects the return value, which is `true` whenever
the send succeeded.) -/
def makeMove (playerId : Option Nat) (s : StoreState) (env : MoveEnv)
    (m : MoveInfo) : Bool × StoreState × List MoveEvent :=
  match s.selectedGame, s.selectedGameId with
  | some selGame, some selId =>
    match playerId with
    | none => (false, { s with hasError := true }, [])
    | some _ =>
      if s.isMoving then (false, s, [])
      else
        let s0 := { s with isMoving := true, hasError := false }
        if env.sendOk then
          let r := retryLoop selId selGame.moveCount (env.steps.take 3) s0
          (true, { r.1 with isMoving := false },
            MoveEvent.guardSet :: MoveEvent.sendMove selId m ::
              (r.2 ++ [MoveEvent.guardClear]))
        else
          (false, { s0 with isMoving := false, hasError := true },
            [MoveEvent.guardSet, MoveEvent.sendMove selId m, MoveEvent.guardClear])
  | _, _ => (false, { s with hasError := true }, [])

/-- `handlePremove` in the page component: staging a premove overwrites any
pending one. -/
def queuePremove (slot : Option MoveInfo) (pm : MoveInfo) : Option MoveInfo :=
  let _ := slot
  some pm

/-- The premove execution effect: when the turn flips to the local player on
an active game and a premove is pending, clear the slot and attempt the
staged move (the attempt's outcome is not consulted).  Returns the new slot
and the move handed to `makeMove`, if any. -/
def premoveExecuteStep (slot : Option MoveInfo) (isMyTurn prevIsMyTurn : Bool)
    (status : GameStatus) : Option MoveInfo × Option MoveInfo :=
  if isMyTurn = true ∧ prevIsMyTurn = false ∧ status = GameStatus.Active then
    match slot with
    | some pm => (none, some pm)
    | none => (none, none)
  else (slot, none)

/-- Mutations the timeout arbiter can issue. -/
inductive TimeoutMutation where
  | resign
  | claimWin
deriving DecidableEq, Repr

/-- One tick's inputs for the timeout arbiter: game status, whether the game
is timed (`selectedTimeControl` present), the local player colour, and the
two clocks in milliseconds. -/
structure TickInput where
  status : GameStatus
  timed : Bool
  playerColor : PlayerColor
  redTimeMs : Int
  blackTimeMs : Int
deriving DecidableEq, Repr

/-- The timeout auto-handler effect: only on active timed games for a
non-spectator; if the local clock expired (and the opponent's did not) and no
resolution is in progress, issue a resign and enter the cool-down; else if
the opponent's clock expired and no resolution is in progress, issue a
claim-win and enter the cool-down.  `resolving` is the
`timeWinClaimInProgress` ref; it is cleared by a separate cool-down timer,
not by this step. -/
def timeoutTick (resolving : Bool) (inp : TickInput) :
    List TimeoutMutation × Bool :=
  if inp.status ≠ GameStatus.Active then ([], resolving)
  else if inp.timed = false then ([], resolving)
  else if inp.playerColor = PlayerColor.spectator then ([], resolving)
  else
    let opponentExpired :=
      if inp.playerColor = PlayerColor.red then inp.blackTimeMs ≤ 0
      else inp.redTimeMs ≤ 0
    let myExpired :=
      if inp.playerColor = PlayerColor.red then inp.redTimeMs ≤ 0
      else inp.blackTimeMs ≤ 0
    if myExpired ∧ ¬opponentExpired ∧ resolving = false then
      ([TimeoutMutation.resign], true)
    else if opponentExpired ∧ resolving = false then
      ([TimeoutMutation.claimWin], true)
    else ([], resolving)

/-- A run of arbiter ticks within one cool-down window (no clearing event in
between), accumulating the issued mutations. -/
def runTicks (resolving : Bool) (inputs : List TickInput) :
    List TimeoutMutation × Bool :=
  inputs.foldl
    (fun acc i =>
      let r := timeoutTick acc.2 i
      (acc.1 ++ r.1, r.2))
    ([], resolving)

/-! ### Codec lemmas -/

theorem splitOnSlash_ne_nil (s : List Char) : splitOnSlash s ≠ [] := by
  cases s with
  | nil => simp [splitOnSlash]
  | cons c cs =>
    simp only [splitOnSlash]
    split <;> simp

theorem joinSlash_cons_head (c : Char) (row : List Char)
    (rest : List (List Char)) :
    joinSlash ((c :: row) :: rest) = c :: joinSlash (row :: rest) := by
  cases rest <;> simp [joinSlash]

theorem joinSlash_splitOnSlash (s : List Char) :
    joinSlash (splitOnSlash s) = s := by
  induction s with
  | nil => rfl
  | cons c cs ih =>
    cases hr : splitOnSlash cs with
    | nil => exact absurd hr (splitOnSlash_ne_nil cs)
    | cons row rest =>
      by_cases hc : c = '/'
      · simp only [splitOnSlash, hc, if_pos rfl]
        rw [hr] at ih ⊢
        cases rest <;> simp [joinSlash] <;> simpa [joinSlash] using ih
      · simp only [splitOnSlash, if_neg hc, hr]
        rw [hr] at ih
        simpa [joinSlash_cons_head] using ih

theorem map_id_on {α : Type} (l : List α) (f : α → α)
    (h : ∀ a ∈ l, f a = a) : l.map f = l := by
  induction l with
  | nil => rfl
  | cons x xs ih =>
    simp only [List.map_cons, h x (by simp)]
    rw [ih fun a ha => h a (by simp [ha])]

/-- The dot-based wire alphabet actually emitted by `boardToString`. -/
def boardAlphabet : List Char := ['.', 'r', 'b', 'R', 'B']

theorem pieceToChar_charToPiece (c : Char) (h : c ∈ boardAlphabet) :
    pieceToChar (charToPiece c) = c := by
  simp only [boardAlphabet, List.mem_cons, List.not_mem_nil, or_false] at h
  rcases h with rfl | rfl | rfl | rfl | rfl <;> rfl

/-- A well-formed row-major board string over the dot alphabet: 8 rows of 8
characters each, every character drawn from `boardAlphabet`. -/
def WellFormedBoardString (s : List Char) : Prop :=
  (splitOnSlash s).length = 8 ∧
    ∀ row ∈ splitOnSlash s, row.length = 8 ∧ ∀ c ∈ row, c ∈ boardAlphabet

instance (s : List Char) : Decidable (WellFormedBoardString s) := by
  unfold WellFormedBoardString
  infer_instance

/-- An 8x8 board string whose empty squares use the space character, as the
spec's wire-format sentence describes them. -/
def spaceBoardString : List Char :=
  ("        /        /        /        /        /        /        /        ").data

/-- Counterexample for C4: the all-space board string is well formed over the
spec's `{space, r, b, R, B}` alphabet (8 rows of 8 such characters), yet
re-encoding its decoding does not return it: `boardToString` writes `'.'`
for every empty square. -/
theorem boardString_space_roundtrip_fails :
    ((splitOnSlash spaceBoardString).length = 8 ∧
      ((splitOnSlash spaceBoardString).all fun row =>
        decide (row.length = 8) &&
          row.all fun c => decide (c ∈ [' ', 'r', 'b', 'R', 'B'])) = true) ∧
      boardToString (parseBoardState spaceBoardString) ≠ spaceBoardString := by
  decide

/-- Claim C4, amended: for every well-formed row-major board string over the
alphabet `{'.', r, b, R, B}` (dot = empty, as emitted by the encoder),
encoding the decoded board yields the original string. -/
theorem boardString_roundtrip (s : List Char) (h : WellFormedBoardString s) :
    boardToString (parseBoardState s) = s := by
  unfold boardToString parseBoardState
  rw [List.map_map]
  have hrows : (splitOnSlash s).map
      (fun row => (row.map charToPiece).map pieceToChar) = splitOnSlash s := by
    refine map_id_on _ _ fun row hrow => ?_
    rw [List.map_map]
    refine map_id_on _ _ fun c hc => ?_
    exact pieceToChar_charToPiece c ((h.2 row hrow).2 c hc)
  simp only [Function.comp_def] at hrows ⊢
  rw [hrows, joinSlash_splitOnSlash]

/-- Witness for the amended C4 theorem at the standard starting board. -/
theorem boardString_roundtrip_witness :
    boardToString (parseBoardState
      ("rrrrrrrr/rrrrrrrr/......../......../......../......../bbbbbbbb/bbbbbbbb").data) =
      ("rrrrrrrr/rrrrrrrr/......../......../......../......../bbbbbbbb/bbbbbbbb").data :=
  boardString_roundtrip _ (by decide)

/-! ### C10: out-of-range `getPiece` -/

/-- Claim C10: `getPiece` returns `Empty` whenever the row or column is outside
`0..7`, instead of indexing out of bounds. -/
theorem getPiece_out_of_range (s : List Char) (row col : Int)
    (h : row < 0 ∨ 8 ≤ row ∨ col < 0 ∨ 8 ≤ col) :
    getPiece s row col = Piece.Empty := by
  unfold getPiece
  rw [if_neg]
  omega

/-- Witness for C10 at a concrete out-of-range query. -/
theorem getPiece_out_of_range_witness :
    getPiece (("rrrrrrrr/........").data) (-1) 9 = Piece.Empty :=
  getPiece_out_of_range _ (-1) 9 (Or.inl (by decide))

/-! ### Engine membership lemmas -/

theorem mem_simpleMovesOf (board : BoardG) (row col : Int) (piece : Piece)
    (m : Pos) :
    m ∈ simpleMovesOf board row col piece ↔
      ∃ d ∈ directionsFor piece,
        m = Pos.mk (row + d.1) (col + d.2) ∧
        0 ≤ row + d.1 ∧ row + d.1 < 8 ∧ 0 ≤ col + d.2 ∧ col + d.2 < 8 ∧
        pieceAt board (row + d.1) (col + d.2) = Piece.Empty := by
  unfold simpleMovesOf simpleStepOpt
  rw [List.mem_filterMap]
  constructor
  · rintro ⟨d, hd, hfd⟩
    dsimp only at hfd
    split_ifs at hfd with hcond
    exact ⟨d, hd, (Option.some_inj.mp hfd).symm, hcond⟩
  · rintro ⟨d, hd, rfl, hcond⟩
    refine ⟨d, hd, ?_⟩
    dsimp only
    rw [if_pos hcond]

theorem mem_captureMovesOf (board : BoardG) (row col : Int) (piece : Piece)
    (m : Pos) :
    m ∈ captureMovesOf board row col piece ↔
      ∃ d ∈ directionsFor piece,
        m = Pos.mk (row + 2 * d.1) (col + 2 * d.2) ∧
        0 ≤ row + 2 * d.1 ∧ row + 2 * d.1 < 8 ∧
        0 ≤ col + 2 * d.2 ∧ col + 2 * d.2 < 8 ∧
        pieceAt board (row + 2 * d.1) (col + 2 * d.2) = Piece.Empty ∧
        isEnemyOf (isRedPiece piece) (pieceAt board (row + d.1) (col + d.2)) = true := by
  unfold captureMovesOf captureStepOpt
  rw [List.mem_filterMap]
  constructor
  · rintro ⟨d, hd, hfd⟩
    dsimp only at hfd
    split_ifs at hfd with hcond
    exact ⟨d, hd, (Option.some_inj.mp hfd).symm, hcond⟩
  · rintro ⟨d, hd, rfl, hcond⟩
    refine ⟨d, hd, ?_⟩
    dsimp only
    rw [if_pos hcond]

theorem directionsFor_units (piece : Piece) (d : Int × Int)
    (hd : d ∈ directionsFor piece) :
    (d.1 = 1 ∨ d.1 = -1) ∧ (d.2 = 1 ∨ d.2 = -1) := by
  unfold directionsFor at hd
  split_ifs at hd <;> simp only [List.mem_cons, List.not_mem_nil, or_false] at hd
  · rcases hd with rfl | rfl | rfl | rfl <;> simp
  · rcases hd with rfl | rfl <;> simp
  · rcases hd with rfl | rfl <;> simp

theorem capture_not_simple (board : BoardG) (row col : Int) (piece : Piece)
    (m : Pos) (hm : m ∈ captureMovesOf board row col piece) :
    m ∉ simpleMovesOf board row col piece := by
  rw [mem_captureMovesOf] at hm
  obtain ⟨d, hd, rfl, -⟩ := hm
  rw [mem_simpleMovesOf]
  rintro ⟨d', hd', heq, -⟩
  have h1 := (directionsFor_units piece d hd).1
  have h2 := (directionsFor_units piece d' hd').1
  have : row + 2 * d.1 = row + d'.1 := congrArg Pos.row heq
  omega

theorem filterMap_ne_nil_iff {α β : Type} (l : List α) (f : α → Option β) :
    l.filterMap f ≠ [] ↔ ∃ a ∈ l, (f a).isSome := by
  constructor
  · intro h
    obtain ⟨b, hb⟩ := List.exists_mem_of_ne_nil _ h
    obtain ⟨a, ha, hfa⟩ := List.mem_filterMap.mp hb
    exact ⟨a, ha, by simp [hfa]⟩
  · rintro ⟨a, ha, hfa⟩
    obtain ⟨b, hb⟩ := Option.isSome_iff_exists.mp hfa
    intro hnil
    have : b ∈ l.filterMap f := List.mem_filterMap.mpr ⟨a, ha, hb⟩
    simp [hnil] at this

/-- A friendly piece with an available capture makes the global scan
succeed. -/
theorem hasAny_of_captures (board : BoardG) (pc : PlayerColor) (row col : Int)
    (piece : Piece)
    (hr : 0 ≤ row ∧ row < 8) (hc : 0 ≤ col ∧ col < 8)
    (hat : pieceAt board row col = piece) (hne : piece ≠ Piece.Empty)
    (hfriend : decide (pc = PlayerColor.red) = isRedPiece piece)
    (hcap : captureMovesOf board row col piece ≠ []) :
    hasAnyCaptureAvailable board pc = true := by
  unfold hasAnyCaptureAvailable
  rw [List.any_eq_true]
  refine ⟨row.toNat, by rw [List.mem_range]; omega, ?_⟩
  rw [List.any_eq_true]
  refine ⟨col.toNat, by rw [List.mem_range]; omega, ?_⟩
  have hrow : ((row.toNat : Nat) : Int) = row := Int.toNat_of_nonneg hr.1
  have hcol : ((col.toNat : Nat) : Int) = col := Int.toNat_of_nonneg hc.1
  unfold captureCheckAt
  rw [hrow, hcol, hat]
  rw [if_neg hne, if_neg (by rw [hfriend]; simp)]
  rw [List.any_eq_true]
  obtain ⟨d, hd, hds⟩ := (filterMap_ne_nil_iff _ _).mp hcap
  exact ⟨d, hd, by simpa using hds⟩

/-! ### C1: mandatory-capture policy of `calculateValidMoves` -/

/-- Claim C1: for a square holding a piece of the acting player's colour:
if the piece has a capture available, `calculateValidMoves` returns exactly
its capture destinations (and none of them is a simple move), and the global
capture scan is necessarily positive; if the piece has no capture while some
friendly piece does, the piece is frozen (empty move set); and when no
friendly piece has any capture the set is exactly the simple diagonal
moves. -/
theorem calculateValidMoves_policy (board : BoardG) (pc : PlayerColor)
    (row col : Int) (piece : Piece)
    (hr : 0 ≤ row ∧ row < 8) (hc : 0 ≤ col ∧ col < 8)
    (hat : pieceAt board row col = piece) (hne : piece ≠ Piece.Empty)
    (hfriend : decide (pc = PlayerColor.red) = isRedPiece piece) :
    (captureMovesOf board row col piece ≠ [] →
      calculateValidMoves board pc row col piece = captureMovesOf board row col piece
      ∧ (∀ m ∈ calculateValidMoves board pc row col piece,
          m ∉ simpleMovesOf board row col piece)
      ∧ hasAnyCaptureAvailable board pc = true)
    ∧ (captureMovesOf board row col piece = [] →
        hasAnyCaptureAvailable board pc = true →
        calculateValidMoves board pc row col piece = [])
    ∧ (hasAnyCaptureAvailable board pc = false →
        calculateValidMoves board pc row col piece =
          simpleMovesOf board row col piece) := by
  refine ⟨?_, ?_, ?_⟩
  · intro hcap
    have heq : calculateValidMoves board pc row col piece =
        captureMovesOf board row col piece := by
      unfold calculateValidMoves
      rw [if_pos hcap]
    refine ⟨heq, ?_, ?_⟩
    · intro m hm
      rw [heq] at hm
      exact capture_not_simple board row col piece m hm
    · exact hasAny_of_captures board pc row col piece hr hc hat hne hfriend hcap
  · intro hcap hany
    unfold calculateValidMoves
    rw [if_neg (by simp [hcap]), if_pos hany]
  · intro hany
    have hcap : captureMovesOf board row col piece = [] := by
      by_contra hcap
      rw [hasAny_of_captures board pc row col piece hr hc hat hne hfriend hcap]
        at hany
      simp at hany
    unfold calculateValidMoves
    rw [if_neg (by simp [hcap]), if_neg (by simp [hany])]

/-- Witness board for C1: a red man on (0,0), a black man on (1,1), landing
square (2,2) empty; a second red man on (0,4) with no capture of its own. -/
def captureBoard : BoardG :=
  parseBoardState
    (("r...r.../.b....../......../......../......../......../......../........").data)

/-- Witness for C1: on `captureBoard` the red man at (0,0) gets exactly its
capture `[⟨2,2⟩]`, the scan is positive, and the red man at (0,4), having no
capture, is frozen. -/
theorem calculateValidMoves_policy_witness :
    calculateValidMoves captureBoard PlayerColor.red 0 0 Piece.Red =
        captureMovesOf captureBoard 0 0 Piece.Red
      ∧ hasAnyCaptureAvailable captureBoard PlayerColor.red = true
      ∧ calculateValidMoves captureBoard PlayerColor.red 0 4 Piece.Red = [] := by
  have h1 := calculateValidMoves_policy captureBoard PlayerColor.red 0 0 Piece.Red
    (by decide) (by decide) (by decide) (by decide) (by decide)
  have h2 := calculateValidMoves_policy captureBoard PlayerColor.red 0 4 Piece.Red
    (by decide) (by decide) (by decide) (by decide) (by decide)
  have hcap : captureMovesOf captureBoard 0 0 Piece.Red ≠ [] := by decide
  refine ⟨(h1.1 hcap).1, (h1.1 hcap).2.2, ?_⟩
  exact h2.2.1 (by decide) (h1.1 hcap).2.2

/-! ### C9: premove staging and the unfiltered premove move set -/

theorem mem_premove_foldr (f g : Int × Int → Option Pos)
    (l : List (Int × Int)) (m : Pos) :
    m ∈ l.foldr (fun d acc => (f d).toList ++ (g d).toList ++ acc) [] ↔
      ∃ d ∈ l, f d = some m ∨ g d = some m := by
  induction l with
  | nil => simp
  | cons d ds ih =>
    simp only [List.foldr_cons, List.mem_append, ih, List.mem_cons]
    constructor
    · rintro ((hf | hg) | ⟨d', hd', h⟩)
      · exact ⟨d, Or.inl rfl, Or.inl (by simpa using hf)⟩
      · exact ⟨d, Or.inl rfl, Or.inr (by simpa using hg)⟩
      · exact ⟨d', Or.inr hd', h⟩
    · rintro ⟨d', h1 | hd', h⟩
      · subst h1
        rcases h with h | h
        · exact Or.inl (Or.inl (by simp [h]))
        · exact Or.inl (Or.inr (by simp [h]))
      · exact Or.inr ⟨d', hd', h⟩

/-- Claim C9: premove staging accepts exactly the squares holding a piece of the
local player's colour (a pure side match, with no reference to the turn), and
the premove move set is the union of the piece's simple moves and captures —
no mandatory-capture filtering, whatever captures exist elsewhere. -/
theorem premove_staging_and_moves :
    (∀ (piece : Piece) (pc : PlayerColor),
      isPieceOwnedByPlayer piece pc = true ↔
        piece ≠ Piece.Empty ∧
          ((pc = PlayerColor.red ∧ isRedPiece piece = true) ∨
            (pc = PlayerColor.black ∧ isRedPiece piece = false)))
    ∧ (∀ (board : BoardG) (row col : Int) (piece : Piece) (m : Pos),
      m ∈ calculatePremoveValidMoves board row col piece ↔
        m ∈ simpleMovesOf board row col piece ∨
          m ∈ captureMovesOf board row col piece) := by
  constructor
  · intro piece pc
    cases piece <;> cases pc <;> decide
  · intro board row col piece m
    unfold calculatePremoveValidMoves simpleMovesOf captureMovesOf
    rw [mem_premove_foldr, List.mem_filterMap, List.mem_filterMap]
    constructor
    · rintro ⟨d, hd, h | h⟩
      · exact Or.inl ⟨d, hd, h⟩
      · exact Or.inr ⟨d, hd, h⟩
    · rintro (⟨d, hd, h⟩ | ⟨d, hd, h⟩)
      · exact ⟨d, hd, Or.inl h⟩
      · exact ⟨d, hd, Or.inr h⟩

/-! ### Board update lemmas -/

/-- A decoded 8x8 board: 8 rows of 8 squares. -/
def WF8 (board : BoardG) : Prop :=
  board.length = 8 ∧ ∀ row ∈ board, row.length = 8

theorem getD_mem_of_lt {α : Type} (l : List α) (n : Nat) (d : α)
    (h : n < l.length) : l.getD n d ∈ l := by
  rw [List.getD_eq_getElem?_getD, List.getElem?_eq_getElem h]
  exact List.getElem_mem h

theorem setSquare_WF8 (board : BoardG) (r c : Int) (p : Piece)
    (h : WF8 board) : WF8 (setSquare board r c p) := by
  unfold setSquare
  split_ifs with hrc
  · by_cases hlt : r.toNat < board.length
    · refine ⟨by simpa using h.1, ?_⟩
      intro row hrow
      rcases List.mem_or_eq_of_mem_set hrow with h1 | h1
      · exact h.2 row h1
      · subst h1
        rw [List.length_set]
        exact h.2 _ (getD_mem_of_lt board r.toNat [] hlt)
    · rw [List.set_eq_of_length_le (Nat.le_of_not_lt hlt)]
      exact h
  · exact h

instance (board : BoardG) : Decidable (WF8 board) := by
  unfold WF8
  infer_instance

theorem pieceAt_setSquare_self (board : BoardG) (r c : Int) (p : Piece)
    (hr : 0 ≤ r ∧ r < 8) (hc : 0 ≤ c ∧ c < 8) (h : WF8 board) :
    pieceAt (setSquare board r c p) r c = p := by
  have hlen := h.1
  have hrlt : r.toNat < board.length := by omega
  have hrowlen : (board.getD r.toNat []).length = 8 :=
    h.2 _ (getD_mem_of_lt board r.toNat [] hrlt)
  have hclt : c.toNat < (board.getD r.toNat []).length := by omega
  unfold pieceAt setSquare
  rw [if_pos ⟨hr.1, hc.1⟩, if_pos ⟨hr.1, hc.1⟩]
  simp only [List.getD_eq_getElem?_getD] at hclt ⊢
  rw [List.getElem?_set_self hrlt, Option.getD_some,
    List.getElem?_set_self hclt, Option.getD_some]

/-! ### C7: promotion at move-application time -/

/-- Claim C7: the optimistic board transform writes `promote piece toRow` at the
destination for every move (captures included); `promote` turns a red man on
row 7 into a red king and a black man on row 0 into a black king, leaves
kings kings, and depends only on the piece and the destination row.  The two
final conjuncts restate the legality membership conditions: a destination is
legal under bounds/emptiness/enemy conditions alone, with no reference to
promotion ranks. -/
theorem promotion_on_apply (board : BoardG) (m : MoveInfo) (hwf : WF8 board)
    (hto : 0 ≤ m.toRow ∧ m.toRow < 8 ∧ 0 ≤ m.toCol ∧ m.toCol < 8) :
    pieceAt (applyMoveBoard board m) m.toRow m.toCol
        = promote (pieceAt board m.fromRow m.fromCol) m.toRow
      ∧ (∀ (p : Piece) (r : Int),
          promote p r = Piece.RedKing ↔ ((p = Piece.Red ∧ r = 7) ∨ p = Piece.RedKing))
      ∧ (∀ (p : Piece) (r : Int),
          promote p r = Piece.BlackKing ↔ ((p = Piece.Black ∧ r = 0) ∨ p = Piece.BlackKing))
      ∧ (∀ r : Int, promote Piece.RedKing r = Piece.RedKing
          ∧ promote Piece.BlackKing r = Piece.BlackKing)
      ∧ (∀ (b2 : BoardG) (row col : Int) (piece : Piece) (dest : Pos),
          dest ∈ simpleMovesOf b2 row col piece ↔
            ∃ d ∈ directionsFor piece,
              dest = Pos.mk (row + d.1) (col + d.2) ∧
              0 ≤ row + d.1 ∧ row + d.1 < 8 ∧ 0 ≤ col + d.2 ∧ col + d.2 < 8 ∧
              pieceAt b2 (row + d.1) (col + d.2) = Piece.Empty)
      ∧ (∀ (b2 : BoardG) (row col : Int) (piece : Piece) (dest : Pos),
          dest ∈ captureMovesOf b2 row col piece ↔
            ∃ d ∈ directionsFor piece,
              dest = Pos.mk (row + 2 * d.1) (col + 2 * d.2) ∧
              0 ≤ row + 2 * d.1 ∧ row + 2 * d.1 < 8 ∧
              0 ≤ col + 2 * d.2 ∧ col + 2 * d.2 < 8 ∧
              pieceAt b2 (row + 2 * d.1) (col + 2 * d.2) = Piece.Empty ∧
              isEnemyOf (isRedPiece piece) (pieceAt b2 (row + d.1) (col + d.2)) = true) := by
  refine ⟨?_, ?_, ?_, ?_, mem_simpleMovesOf, mem_captureMovesOf⟩
  · unfold applyMoveBoard
    apply pieceAt_setSquare_self _ _ _ _ ⟨hto.1, hto.2.1⟩ ⟨hto.2.2.1, hto.2.2.2⟩
    split_ifs
    · exact setSquare_WF8 _ _ _ _ (setSquare_WF8 _ _ _ _ hwf)
    · exact setSquare_WF8 _ _ _ _ hwf
  · intro p r
    unfold promote
    split_ifs with h1 h2 <;> simp_all
  · intro p r
    unfold promote
    split_ifs with h1 h2 <;> simp_all
  · intro r
    unfold promote
    refine ⟨by simp, by simp⟩

/-- Witness board for C7: red man on (5,2), black man on (6,3), empty (7,4):
a capture that lands on the promotion rank. -/
def promoBoard : BoardG :=
  parseBoardState
    (("......../......../......../......../......../..r...../...b..../........").data)

/-- Witness for C7: the capture from (5,2) to (7,4) lands on row 7 and yields
a red king at the destination immediately. -/
theorem promotion_on_apply_witness :
    pieceAt (applyMoveBoard promoBoard ⟨5, 2, 7, 4⟩) 7 4 = Piece.RedKing := by
  have h := promotion_on_apply promoBoard ⟨5, 2, 7, 4⟩ (by decide) (by decide)
  rw [h.1]
  decide

/-! ### C6: optimistic move followed by rollback -/

/-- Claim C6: `localMakeMove` then `rollbackMove` restores the pre-mutation state
exactly: the games list, the selected game, and in particular its board
string, turn and move count. -/
theorem localMakeMove_rollback (s : StoreState) (g : Game) (m : MoveInfo)
    (hg : s.selectedGame = some g) :
    (rollbackMove (localMakeMove s m)).games = s.games
      ∧ (rollbackMove (localMakeMove s m)).selectedGame = s.selectedGame
      ∧ ((rollbackMove (localMakeMove s m)).selectedGame.map Game.boardState
          = s.selectedGame.map Game.boardState)
      ∧ ((rollbackMove (localMakeMove s m)).selectedGame.map Game.currentTurn
          = s.selectedGame.map Game.currentTurn)
      ∧ ((rollbackMove (localMakeMove s m)).selectedGame.map Game.moveCount
          = s.selectedGame.map Game.moveCount) := by
  simp [localMakeMove, rollbackMove, hg]

/-- A concrete active game used by the witnesses. -/
def sampleGame : Game :=
  { id := 1
    boardState :=
      ("rrrrrrrr/rrrrrrrr/......../......../......../......../bbbbbbbb/bbbbbbbb").data
    currentTurn := Turn.Red
    moveCount := 0
    status := GameStatus.Active }

/-- A concrete store with `sampleGame` selected. -/
def sampleStore : StoreState :=
  { games := [sampleGame]
    selectedGame := some sampleGame
    selectedGameId := some 1
    isMoving := false
    previousState := none
    hasError := false }

/-- Witness for C6 at a concrete optimistic move. -/
theorem localMakeMove_rollback_witness :
    (rollbackMove (localMakeMove sampleStore ⟨2, 1, 3, 2⟩)).games = sampleStore.games
      ∧ (rollbackMove (localMakeMove sampleStore ⟨2, 1, 3, 2⟩)).selectedGame
          = sampleStore.selectedGame :=
  ⟨(localMakeMove_rollback sampleStore sampleGame ⟨2, 1, 3, 2⟩ rfl).1,
    (localMakeMove_rollback sampleStore sampleGame ⟨2, 1, 3, 2⟩ rfl).2.1⟩

/-! ### C2: snapshot reconciliation -/

/-- A snapshot of game 1 with the given move count. -/
def gameWithCount (n : Nat) : Game :=
  { id := 1
    boardState := []
    currentTurn := Turn.Red
    moveCount := n
    status := GameStatus.Active }

/-- A store with game 1 selected at the given cached move count. -/
def storeWithCount (n : Nat) : StoreState :=
  { games := [gameWithCount n]
    selectedGame := some (gameWithCount n)
    selectedGameId := some 1
    isMoving := false
    previousState := none
    hasError := false }

/-- Counterexample for C2: `fetchGame` carries no `moveCount` guard.  A snapshot
of the currently selected game with a strictly smaller `moveCount` replaces
the cached one, and the arrival order `[3, 2, 5, 4]` through this path leaves
the store at `moveCount = 4`, not the maximum 5. -/
theorem fetchGame_no_guard_counterexample :
    (fetchGameApply (storeWithCount 3) 1 (some (gameWithCount 2))).selectedGame
        = some (gameWithCount 2)
      ∧ (gameWithCount 2).moveCount < (gameWithCount 3).moveCount
      ∧ (([gameWithCount 3, gameWithCount 2, gameWithCount 5, gameWithCount 4].foldl
            (fun s x => fetchGameApply s 1 (some x)) (storeWithCount 0)).selectedGame.map
          Game.moveCount) = some 4 := by
  decide

theorem fetchGamesApply_selectedGameId (s : StoreState) (inc : List Game) :
    (fetchGamesApply s inc).selectedGameId = s.selectedGameId := by
  unfold fetchGamesApply
  dsimp only
  split
  · rfl
  · split
    · rfl
    · split
      · rfl
      · split_ifs <;> rfl

theorem fetchGamesApply_selectedGame (s : StoreState) (inc : List Game)
    (i : Nat) (g0 : Game)
    (hi : s.selectedGameId = some i) (hg : s.selectedGame = some g0) :
    (fetchGamesApply s inc).selectedGame =
      match findGame inc i with
      | none => some g0
      | some u => if u.moveCount ≥ g0.moveCount then some u else some g0 := by
  unfold fetchGamesApply
  rw [hi, hg]
  dsimp only
  cases hfind : findGame inc i with
  | none => rfl
  | some u =>
    dsimp only
    split_ifs <;> rfl

/-- Claim C2, amended: the background-polling reconciler (`fetchGames`) replaces
the cached snapshot of the selected game only when the incoming `moveCount`
is at least the cached one, and a fold over any arrival order therefore ends
at the maximum `moveCount` observed; the single-game fetch path
(`fetchGame`), by contrast, replaces unconditionally (see the
counterexample), so only this polling path enjoys the monotonicity. -/
theorem fetchGames_reconcile_max (s : StoreState) (i : Nat) (g0 : Game)
    (incs : List (List Game))
    (hi : s.selectedGameId = some i) (hg : s.selectedGame = some g0) :
    (∀ (inc : List Game) (u : Game), findGame inc i = some u →
      (fetchGamesApply s inc).selectedGame =
        some (if u.moveCount ≥ g0.moveCount then u else g0))
    ∧ ((incs.foldl fetchGamesApply s).selectedGame.map Game.moveCount =
        some (((incs.filterMap fun l => findGame l i).map Game.moveCount).foldl
          Nat.max g0.moveCount)) := by
  constructor
  · intro inc u hu
    rw [fetchGamesApply_selectedGame s inc i g0 hi hg, hu]
    dsimp only
    split_ifs <;> rfl
  · induction incs generalizing s g0 with
    | nil => simp [hg]
    | cons inc rest ih =>
      have hid : (fetchGamesApply s inc).selectedGameId = some i := by
        rw [fetchGamesApply_selectedGameId, hi]
      have hsel := fetchGamesApply_selectedGame s inc i g0 hi hg
      rw [List.foldl_cons]
      cases hfind : findGame inc i with
      | none =>
        rw [hfind] at hsel
        rw [ih _ _ hid hsel]
        simp [List.filterMap_cons, hfind]
      | some u =>
        rw [hfind] at hsel
        dsimp only at hsel
        by_cases hcmp : u.moveCount ≥ g0.moveCount
        · rw [if_pos hcmp] at hsel
          rw [ih _ _ hid hsel]
          simp only [List.filterMap_cons, hfind, List.map_cons, List.foldl_cons]
          have hmax : Nat.max g0.moveCount u.moveCount = u.moveCount :=
            Nat.max_eq_right hcmp
          rw [hmax]
        · rw [if_neg hcmp] at hsel
          rw [ih _ _ hid hsel]
          simp only [List.filterMap_cons, hfind, List.map_cons, List.foldl_cons]
          have hmax : Nat.max g0.moveCount u.moveCount = g0.moveCount :=
            Nat.max_eq_left (Nat.le_of_lt (Nat.lt_of_not_le hcmp))
          rw [hmax]

/-- Witness for the amended C2 theorem: polling arrivals with move counts
`[3, 2, 5, 4]` leave the reconciler at the maximum, 5. -/
theorem fetchGames_reconcile_max_witness :
    (([[gameWithCount 3], [gameWithCount 2], [gameWithCount 5], [gameWithCount 4]].foldl
        fetchGamesApply (storeWithCount 0)).selectedGame.map Game.moveCount) = some 5 := by
  have h := fetchGames_reconcile_max (storeWithCount 0) 1 (gameWithCount 0)
    [[gameWithCount 3], [gameWithCount 2], [gameWithCount 5], [gameWithCount 4]]
    rfl rfl
  rw [h.2]
  decide

/-! ### C5: timeout arbiter -/

theorem timeoutTick_resolving (inp : TickInput) :
    timeoutTick true inp = ([], true) := by
  unfold timeoutTick
  split_ifs <;> simp_all

theorem timeoutTick_cases (r : Bool) (inp : TickInput) :
    (timeoutTick r inp).1 = [] ∨ (timeoutTick r inp).1 = [TimeoutMutation.resign]
      ∨ (timeoutTick r inp).1 = [TimeoutMutation.claimWin] := by
  rcases inp with ⟨st, t, pc, rt, bt⟩
  cases pc <;> simp only [timeoutTick] <;> split_ifs <;> simp_all

theorem runTicks_resolved (inputs : List TickInput) (acc : List TimeoutMutation) :
    inputs.foldl
      (fun a i =>
        let r := timeoutTick a.2 i
        (a.1 ++ r.1, r.2))
      (acc, true) = (acc, true) := by
  induction inputs generalizing acc with
  | nil => rfl
  | cons i is ih =>
    rw [List.foldl_cons]
    dsimp only
    rw [timeoutTick_resolving]
    simpa using ih acc

/-- Claim C5: with the local player red, `redTimeMs = 0`, `blackTimeMs > 0`, an
active timed game and no resolution in progress, the tick issues exactly one
resign and enters the cool-down; any further ticks inside the cool-down
window (whatever they observe) issue nothing, so the whole run issues exactly
one resign; and no tick ever issues a resign and a claim-win together. -/
theorem timeout_resign_once (inp : TickInput) (rest : List TickInput)
    (hs : inp.status = GameStatus.Active) (ht : inp.timed = true)
    (hp : inp.playerColor = PlayerColor.red)
    (hr : inp.redTimeMs ≤ 0) (hb : 0 < inp.blackTimeMs) :
    timeoutTick false inp = ([TimeoutMutation.resign], true)
      ∧ runTicks false (inp :: rest) = ([TimeoutMutation.resign], true)
      ∧ (∀ (r : Bool) (i : TickInput),
          ¬(TimeoutMutation.resign ∈ (timeoutTick r i).1
            ∧ TimeoutMutation.claimWin ∈ (timeoutTick r i).1)) := by
  have hb2 : ¬inp.blackTimeMs ≤ 0 := by omega
  have h1 : timeoutTick false inp = ([TimeoutMutation.resign], true) := by
    unfold timeoutTick
    simp [hs, ht, hp, hr, hb2]
  refine ⟨h1, ?_, ?_⟩
  · unfold runTicks
    rw [List.foldl_cons]
    dsimp only
    rw [h1]
    simpa using runTicks_resolved rest [TimeoutMutation.resign]
  · intro r i
    rcases timeoutTick_cases r i with h | h | h <;> rw [h] <;> simp

/-- A concrete tick observation: active timed game, local player red, red
clock expired, black clock positive. -/
def tickExpired : TickInput :=
  { status := GameStatus.Active
    timed := true
    playerColor := PlayerColor.red
    redTimeMs := 0
    blackTimeMs := 5000 }

/-- Witness for C5: three identical expired ticks inside one cool-down window
produce exactly one resign. -/
theorem timeout_resign_once_witness :
    runTicks false [tickExpired, tickExpired, tickExpired]
      = ([TimeoutMutation.resign], true) :=
  (timeout_resign_once tickExpired [tickExpired, tickExpired]
    rfl rfl rfl (by decide) (by decide)).2.1

/-! ### C8: single-flight move submission -/

/-- Recognizes confirmation-fetch events. -/
def isFetchEvent : MoveEvent → Bool
  | MoveEvent.fetchAttempt _ => true
  | _ => false

theorem getLast?_cons_cons_concat {α : Type} (a b : α) (l : List α) (x : α) :
    (a :: b :: (l ++ [x])).getLast? = some x := by
  rw [show a :: b :: (l ++ [x]) = (a :: b :: l) ++ [x] by simp]
  exact List.getLast?_concat _

theorem fetchGameApply_selectedGame_char (s : StoreState) (i : Nat)
    (f : Option Game) :
    (fetchGameApply s i f).selectedGame = s.selectedGame
      ∨ (fetchGameApply s i f).selectedGame = f := by
  cases f with
  | none => exact Or.inl rfl
  | some g => exact Or.inr rfl

theorem retryLoop_fetch_count (gid oc : Nat) (steps : List RetryStep)
    (s : StoreState) :
    ((retryLoop gid oc steps s).2.countP isFetchEvent) ≤ steps.length := by
  induction steps generalizing s with
  | nil => simp [retryLoop]
  | cons step rest ih =>
    unfold retryLoop
    split_ifs with h1
    · simp
    · dsimp only
      split
      · simp only [List.countP_cons, List.countP_nil, isFetchEvent, eq_self_iff_true, if_true, List.length_cons]
        omega
      · split_ifs
        · simp only [List.countP_cons, List.countP_nil, isFetchEvent, eq_self_iff_true, if_true, List.length_cons]
          omega
        · simp only [List.countP_cons, List.countP_nil, isFetchEvent, eq_self_iff_true, if_true, List.length_cons]
          omega
        · simp only [List.countP_cons, isFetchEvent, eq_self_iff_true, if_true, List.length_cons]
          have := ih (fetchGameApply { s with selectedGameId := step.selectedIdNow } gid step.fetched)
          omega

theorem retryLoop_selectedGame (gid oc : Nat) (steps : List RetryStep)
    (s : StoreState) :
    (retryLoop gid oc steps s).1.selectedGame = s.selectedGame
      ∨ ∃ st ∈ steps, (retryLoop gid oc steps s).1.selectedGame = st.fetched := by
  induction steps generalizing s with
  | nil => exact Or.inl rfl
  | cons step rest ih =>
    unfold retryLoop
    split_ifs with h1
    · exact Or.inl rfl
    · have hchar := fetchGameApply_selectedGame_char
        { s with selectedGameId := step.selectedIdNow } gid step.fetched
      dsimp only
      split
      · rcases hchar with h | h
        · exact Or.inl h
        · exact Or.inr ⟨step, List.mem_cons_self _ _, h⟩
      · split_ifs
        · rcases hchar with h | h
          · exact Or.inl h
          · exact Or.inr ⟨step, List.mem_cons_self _ _, h⟩
        · rcases hchar with h | h
          · exact Or.inl h
          · exact Or.inr ⟨step, List.mem_cons_self _ _, h⟩
        · rcases ih (fetchGameApply { s with selectedGameId := step.selectedIdNow } gid step.fetched) with h | ⟨st, hst, hh⟩
          · rcases hchar with h2 | h2
            · exact Or.inl (h.trans h2)
            · exact Or.inr ⟨step, List.mem_cons_self _ _, h.trans h2⟩
          · exact Or.inr ⟨st, List.mem_cons_of_mem _ hst, hh⟩

/-- Claim C8: if a move is already in flight, `makeMove` returns `false` at once,
sends nothing and leaves the store untouched; otherwise, for every
environment, the guard is set before the mutation is sent (the event trace
starts `guardSet, sendMove`), the guard is clear again when the call
completes (the trace ends with `guardClear` and the final state has
`isMoving = false`), and at most 3 confirmation fetches are attempted. -/
theorem makeMove_single_flight (pid : Nat) (s : StoreState) (env : MoveEnv)
    (m : MoveInfo) (g : Game) (i : Nat)
    (hg : s.selectedGame = some g) (hi : s.selectedGameId = some i) :
    (s.isMoving = true → makeMove (some pid) s env m = (false, s, []))
    ∧ (s.isMoving = false →
        (makeMove (some pid) s env m).2.1.isMoving = false
        ∧ (∃ rest, (makeMove (some pid) s env m).2.2
            = MoveEvent.guardSet :: MoveEvent.sendMove i m :: rest)
        ∧ ((makeMove (some pid) s env m).2.2).getLast? = some MoveEvent.guardClear
        ∧ (((makeMove (some pid) s env m).2.2).countP isFetchEvent) ≤ 3) := by
  constructor
  · intro hmov
    unfold makeMove
    rw [hg, hi]
    dsimp only
    rw [if_pos hmov]
  · intro hmov
    unfold makeMove
    rw [hg, hi]
    dsimp only
    rw [if_neg (by rw [hmov]; exact Bool.false_ne_true)]
    cases hok : env.sendOk with
    | false =>
      rw [if_neg (by simp)]
      refine ⟨rfl, ⟨[MoveEvent.guardClear], rfl⟩, rfl, by simp [isFetchEvent]⟩
    | true =>
      rw [if_pos rfl]
      refine ⟨rfl, ⟨_, rfl⟩, ?_, ?_⟩
      · exact getLast?_cons_cons_concat _ _ _ _
      · have h1 := retryLoop_fetch_count i g.moveCount (env.steps.take 3)
          { s with selectedGame := some g, selectedGameId := some i, isMoving := true, hasError := false }
        have h2 : (env.steps.take 3).length ≤ 3 := by
          simp
        simp [List.countP_cons, List.countP_append, isFetchEvent]
        omega

/-- Witness for C8 with a concrete store, environment and move. -/
theorem makeMove_single_flight_witness :
    (makeMove (some 7) sampleStore ⟨true, []⟩ ⟨2, 1, 3, 2⟩).2.1.isMoving = false
      ∧ ((makeMove (some 7) sampleStore ⟨true, []⟩ ⟨2, 1, 3, 2⟩).2.2).getLast?
          = some MoveEvent.guardClear := by
  have h := (makeMove_single_flight 7 sampleStore ⟨true, []⟩ ⟨2, 1, 3, 2⟩
    sampleGame 1 rfl rfl).2 rfl
  exact ⟨h.1, h.2.2.1⟩

/-! ### C3: premove lifecycle -/

/-- Counterexample for C3: with the standard starting board, the staged premove
`(0,0) → (5,5)` is illegal (it is in neither the premove move set nor the
legal move set of the red man on (0,0)); yet on the turn flip the execution
effect clears the slot and hands the move to `makeMove`, which submits the
move mutation — the event trace contains the send. -/
theorem premove_illegal_still_submitted :
    premoveExecuteStep (some ⟨0, 0, 5, 5⟩) true false GameStatus.Active
        = (none, some ⟨0, 0, 5, 5⟩)
      ∧ Pos.mk 5 5 ∉
          calculatePremoveValidMoves (parseBoardState sampleGame.boardState) 0 0 Piece.Red
      ∧ Pos.mk 5 5 ∉
          calculateValidMoves (parseBoardState sampleGame.boardState)
            PlayerColor.red 0 0 Piece.Red
      ∧ MoveEvent.sendMove 1 ⟨0, 0, 5, 5⟩ ∈
          (makeMove (some 7) sampleStore ⟨true, []⟩ ⟨0, 0, 5, 5⟩).2.2 := by
  decide

/-- Claim C3, amended: staging a second premove before the turn flips leaves only
the second one pending; when the turn flips to the local player on an active
game the pending premove is attempted and the slot is cleared regardless of
outcome; the attempt goes through the normal submission path with no
client-side legality validation (the move is handed to `makeMove` whatever it
is), and the submission itself never mutates the cached board locally — the
selected game only ever changes to a server-fetched snapshot. -/
theorem premove_lifecycle (s : StoreState) (g : Game) (pid : Option Nat)
    (env : MoveEnv) (m : MoveInfo) (hg : s.selectedGame = some g) :
    (∀ (slot : Option MoveInfo) (a b : MoveInfo),
        queuePremove (queuePremove slot a) b = some b)
    ∧ (∀ pm : MoveInfo,
        premoveExecuteStep (some pm) true false GameStatus.Active = (none, some pm))
    ∧ ((makeMove pid s env m).2.1.selectedGame = some g
        ∨ ∃ st ∈ env.steps, (makeMove pid s env m).2.1.selectedGame = st.fetched) := by
  refine ⟨fun slot a b => rfl, fun pm => by simp [premoveExecuteStep], ?_⟩
  unfold makeMove
  rw [hg]
  cases hsi : s.selectedGameId with
  | none => exact Or.inl rfl
  | some i =>
    cases pid with
    | none => exact Or.inl rfl
    | some p =>
      dsimp only
      by_cases hmov : s.isMoving = true
      · rw [if_pos hmov]
        exact Or.inl hg
      · rw [if_neg hmov]
        cases hok : env.sendOk with
        | false => exact Or.inl rfl
        | true =>
          rw [if_pos rfl]
          rcases retryLoop_selectedGame i g.moveCount (env.steps.take 3)
              { s with selectedGame := some g, selectedGameId := some i, isMoving := true, hasError := false }
            with h | ⟨st, hst, hh⟩
          · exact Or.inl h
          · exact Or.inr ⟨st, List.take_subset _ _ hst, hh⟩

/-- Witness for the amended C3 theorem at a concrete store and environment. -/
theorem premove_lifecycle_witness :
    queuePremove (queuePremove none ⟨2, 1, 3, 2⟩) ⟨2, 3, 3, 4⟩ = some ⟨2, 3, 3, 4⟩
      ∧ ((makeMove (some 7) sampleStore ⟨true, []⟩ ⟨2, 3, 3, 4⟩).2.1.selectedGame
            = some sampleGame
          ∨ ∃ st ∈ ([] : List RetryStep),
              (makeMove (some 7) sampleStore ⟨true, []⟩ ⟨2, 3, 3, 4⟩).2.1.selectedGame
                = st.fetched) := by
  have h := premove_lifecycle sampleStore sampleGame (some 7) ⟨true, []⟩
    ⟨2, 3, 3, 4⟩ rfl
  exact ⟨h.1 none ⟨2, 1, 3, 2⟩ ⟨2, 3, 3, 4⟩, h.2.2⟩

end Checkers
